import Mathlib

/-!
Verification of the workflow execution engine of the semantic-analysis agent
system (source: src/agents/coordinator.py, src/agents/base.py,
src/working_mcp_server.py, src/config/agent_config.py).

The Python code is shallowly embedded:
* JSON-like agent payloads (Python dicts with string keys) become association
  lists over an inductive `Value` type; Python dict key membership, `get` with
  default, and insertion-order preservation are modelled directly.
* Fallible Python code (code that can raise) returns `Except String`.
* The cooperative asyncio scheduling of the coordinator is modelled at the
  granularity the source itself guarantees: the only suspension points are the
  awaited dispatch of a step to an agent and the monitor sleep, so every
  segment of straight-line code between suspension points is one atomic
  transition, and "observable instants" are the states between transitions.
* Wall-clock timestamps (time.time()) are modelled by a logical Nat clock;
  only presence/absence and ordering of stamps matter to the claims.
-/

namespace SemanticAnalysis

/-- Python values appearing in agent payloads: integers, strings and lists
(the shapes the validation engine in coordinator.py inspects). -/
inductive Value where
  | vInt : Int → Value
  | vStr : String → Value
  | vList : List Value → Value

/-- A Python dict with string keys, as an insertion-ordered association list. -/
abbrev Payload := List (String × Value)

/-- Key lookup in a payload (Python `d[k]` / `k in d`). -/
def lookupP (p : Payload) (k : String) : Option Value :=
  match p with
  | [] => none
  | (k₀, v) :: rest => if k₀ = k then some v else lookupP rest k

/-- Lowercase a string character by character (Python `str.lower`, restricted
to the ASCII error texts the engine generates). -/
def lowerChars (s : String) : List Char := s.data.map Char.toLower

/-- Boolean list-prefix test used for substring search. -/
def isPref : List Char → List Char → Bool
  | [], _ => true
  | _ :: _, [] => false
  | a :: as, b :: bs => a == b && isPref as bs

/-- Boolean substring containment on character lists (Python `needle in hay`). -/
def containsSub (needle : List Char) : List Char → Bool
  | [] => isPref needle []
  | c :: rest => isPref needle (c :: rest) || containsSub needle rest

/-- Python `pattern in error.lower()` for one critical pattern. -/
def patternMatches (pattern error : String) : Bool :=
  containsSub pattern.data (lowerChars error)

/-- The critical error patterns of QualityAssurance._is_critical_error. -/
def critical_patterns : List String :=
  ["missing required field", "invalid format", "critical failure"]

/-- QualityAssurance._is_critical_error: any error contains (case-insensitively)
any critical pattern. -/
def _is_critical_error (errors : List String) : Bool :=
  errors.any (fun error => critical_patterns.any (fun pattern => patternMatches pattern error))

/-- The per-agent required-field lists from
QualityAssurance._setup_validation_rules (the "workflow" rule set has no
"required_fields" entry, so its list is empty, like every unknown agent id). -/
def required_fields (agent_id : String) : List String :=
  if agent_id = "semantic_analysis" then ["analysis", "significance"]
  else if agent_id = "knowledge_graph" then ["entities", "relations"]
  else []

/-- Default placeholder for a recognized missing field
(QualityAssurance._attempt_auto_correction, the if/elif chain). -/
def defaultFor (f : String) : Option Value :=
  if f = "significance" then some (Value.vInt 5)
  else if f = "analysis" then some (Value.vStr "Auto-generated analysis placeholder")
  else if f = "entities" then some (Value.vList [])
  else if f = "relations" then some (Value.vList [])
  else none

/-- One iteration of the correction loop: fill the field if absent and
recognized; Python dict assignment on a fresh key appends in insertion order. -/
def fillField (p : Payload) (f : String) : Payload :=
  if (lookupP p f).isSome then p
  else match defaultFor f with
    | some v => p ++ [(f, v)]
    | none => p

/-- QualityAssurance._attempt_auto_correction: copy the output and fill each
missing required field with its placeholder (errors and context parameters are
received but never read by the source). -/
def _attempt_auto_correction (agent_id : String) (output : Payload) : Payload :=
  (required_fields agent_id).foldl fillField output

/-- The quality-thresholds configuration bag handed to QualityAssurance
(coordinator.py reads it with `config.get(key, default)`). -/
structure QAConfig where
  min_significance : Option Int := none
  max_errors : Option Int := none
  min_completeness : Option Rat := none
  auto_correction_enabled : Option Bool := none
deriving DecidableEq, Repr

/-- The dictionary QualityAssurance.validate_agent_output returns (the
wall-clock "validation_time" entry is omitted: no claim concerns it). -/
structure QAReport where
  passed : Bool
  errors : List String
  warnings : List String
  corrected : Bool
  corrected_output : Option Payload

/-- Python `output.get("significance", 0)` followed by an integer comparison:
a non-integer value raises TypeError at the comparison. -/
def getSignificance (output : Payload) : Except String Int :=
  match lookupP output "significance" with
  | none => .ok 0
  | some (Value.vInt n) => .ok n
  | some _ => .error "TypeError: unsupported comparison"

/-- Python `len(output.get("entities", []))`: lists and strings have a length,
an integer raises TypeError. -/
def getEntitiesLen (output : Payload) : Except String Int :=
  match lookupP output "entities" with
  | none => .ok 0
  | some (Value.vList l) => .ok l.length
  | some (Value.vStr s) => .ok s.length
  | some (Value.vInt _) => .error "TypeError: int has no len"

/-- The missing-required-field errors collected by the first loop of
validate_agent_output, in required-field order. -/
def missing_field_errors (agent_id : String) (output : Payload) : List String :=
  (required_fields agent_id).filterMap
    (fun f => if (lookupP output f).isNone
              then some ("Missing required field: " ++ f) else none)

/-- The agent-specific section of validate_agent_output ("Type-specific
validation"): it extends the error list and produces the warnings, and it is
the only part that can raise. -/
def type_specific_checks (cfg : QAConfig) (agent_id : String) (output : Payload)
    (missingErrors : List String) : Except String (List String × List String) :=
  if agent_id = "semantic_analysis" then
    (getSignificance output).map (fun significance =>
      let minSig := cfg.min_significance.getD 5
      (missingErrors,
        if significance < minSig then
          ["Low significance score: " ++ toString significance ++ " < " ++ toString minSig]
        else []))
  else if agent_id = "knowledge_graph" then
    (getEntitiesLen output).map (fun nEntities =>
      let minEntities : Int := 1
      (if nEntities < minEntities then
         missingErrors ++
           ["Insufficient entities: " ++ toString nEntities ++ " < " ++ toString minEntities]
       else missingErrors, []))
  else
    .ok (missingErrors, [])

/-- The auto-correction attempt of validate_agent_output: performed exactly
when it is enabled, errors exist and none is critical. -/
def correction_attempt (cfg : QAConfig) (agent_id : String) (output : Payload)
    (errors : List String) : Option Payload :=
  if cfg.auto_correction_enabled.getD true && !errors.isEmpty && !_is_critical_error errors then
    some (_attempt_auto_correction agent_id output)
  else none

/-- The tail of validate_agent_output: assemble the returned report.
`corrected` is Python `bool(corrected_output)`: true only for a non-empty
corrected dict. -/
def assemble_report (cfg : QAConfig) (agent_id : String) (output : Payload)
    (ew : List String × List String) : QAReport :=
  { passed := ew.1.isEmpty
    errors := ew.1
    warnings := ew.2
    corrected := match correction_attempt cfg agent_id output ew.1 with
                 | some p => !p.isEmpty
                 | none => false
    corrected_output := correction_attempt cfg agent_id output ew.1 }

/-- QualityAssurance.validate_agent_output. Missing-required-field errors are
collected first; then the type-specific check runs (semantic_analysis: low
significance is a warning; knowledge_graph: too few entities is an error);
then the report is assembled, attempting auto-correction. -/
def validate_agent_output (cfg : QAConfig) (agent_id : String) (output : Payload) :
    Except String QAReport :=
  (type_specific_checks cfg agent_id output (missing_field_errors agent_id output)).map
    (assemble_report cfg agent_id output)

/-! ### Substring-matching facts about the critical-pattern classifier -/

theorem isPref_append_self (n xs : List Char) : isPref n (n ++ xs) = true := by
  induction n with
  | nil => rfl
  | cons a as ih => simp [isPref, ih]

theorem containsSub_of_isPref {n h : List Char} (hp : isPref n h = true) :
    containsSub n h = true := by
  cases h with
  | nil => exact hp
  | cons c t => simp [containsSub, hp]

/-- Every error the engine generates for a missing required field matches the
first critical pattern case-insensitively, whatever the field name. -/
theorem patternMatches_missing_field (f : String) :
    patternMatches "missing required field" ("Missing required field: " ++ f) = true := by
  unfold patternMatches lowerChars
  rw [String.data_append, List.map_append]
  have h1 : "Missing required field: ".data.map Char.toLower
      = "missing required field".data ++ ": ".data := by decide
  rw [h1, List.append_assoc]
  exact containsSub_of_isPref (isPref_append_self _ _)

/-- The type-specific section can only extend the missing-field errors on the
right, so every missing-field error survives into the final error list. -/
theorem type_specific_checks_extends (cfg : QAConfig) (agent_id : String)
    (output : Payload) (me : List String) (ew : List String × List String)
    (hok : type_specific_checks cfg agent_id output me = .ok ew) :
    ∃ tail, ew.1 = me ++ tail := by
  unfold type_specific_checks at hok
  split at hok
  · cases hsig : getSignificance output with
    | ok n =>
      rw [hsig] at hok
      simp only [Except.map, Except.ok.injEq] at hok
      exact ⟨[], by rw [← hok]; simp⟩
    | error e =>
      rw [hsig] at hok
      simp [Except.map] at hok
  · split at hok
    · cases hent : getEntitiesLen output with
      | ok n =>
        rw [hent] at hok
        simp only [Except.map, Except.ok.injEq] at hok
        subst hok
        by_cases hlt : n < 1
        · exact ⟨["Insufficient entities: " ++ toString n ++ " < " ++ toString (1 : Int)],
            by simp [hlt]⟩
        · exact ⟨[], by simp [hlt]⟩
      | error e =>
        rw [hent] at hok
        simp [Except.map] at hok
    · simp only [Except.ok.injEq] at hok
      exact ⟨[], by rw [← hok]; simp⟩

/-- For a non-"knowledge_graph" agent id, the type-specific section never adds
errors: the final error list is exactly the missing-field list. -/
theorem type_specific_checks_non_kg (cfg : QAConfig) (agent_id : String)
    (output : Payload) (me : List String) (ew : List String × List String)
    (hkg : agent_id ≠ "knowledge_graph")
    (hok : type_specific_checks cfg agent_id output me = .ok ew) :
    ew.1 = me := by
  unfold type_specific_checks at hok
  rw [if_neg hkg] at hok
  split at hok
  · cases hsig : getSignificance output with
    | ok n =>
      rw [hsig] at hok
      simp only [Except.map, Except.ok.injEq] at hok
      rw [← hok]
    | error e =>
      rw [hsig] at hok
      simp [Except.map] at hok
  · simp only [Except.ok.injEq] at hok
    rw [← hok]

/-- Filling fields that are all already present is a no-op. -/
theorem foldl_fillField_complete (fields : List String) (p : Payload)
    (h : ∀ f ∈ fields, (lookupP p f).isSome) :
    fields.foldl fillField p = p := by
  induction fields with
  | nil => rfl
  | cons f fs ih =>
    have h1 : fillField p f = p := by
      unfold fillField
      rw [if_pos (h f (by simp))]
    simp only [List.foldl_cons, h1]
    exact ih (fun x hx => h x (by simp [hx]))

/-- A payload that already has every required field is a fixed point of the
auto-corrector. -/
theorem auto_correction_complete_id (agent_id : String) (output : Payload)
    (hcomplete : ∀ f ∈ required_fields agent_id, (lookupP output f).isSome) :
    _attempt_auto_correction agent_id output = output := by
  unfold _attempt_auto_correction
  exact foldl_fillField_complete _ _ hcomplete

/-- The corrected payload, when one is produced at all, is always the
auto-corrector applied to the input. -/
theorem assemble_report_corrected_output (cfg : QAConfig) (agent_id : String)
    (output : Payload) (ew : List String × List String) :
    (assemble_report cfg agent_id output ew).corrected_output = none ∨
    (assemble_report cfg agent_id output ew).corrected_output
      = some (_attempt_auto_correction agent_id output) := by
  have hco : (assemble_report cfg agent_id output ew).corrected_output
      = correction_attempt cfg agent_id output ew.1 := rfl
  rw [hco]
  unfold correction_attempt
  split
  · right; rfl
  · left; rfl

/-- C1: for every agent id and output missing a required field of that agent,
validate_agent_output (when it returns a report) reports corrected = false and
no corrected payload: the generated error "Missing required field: f" matches
the critical pattern "missing required field" case-insensitively, so the whole
error set is critical and auto-correction is skipped, making the
placeholder-filling branch for missing required fields unreachable. -/
theorem C1_missing_field_always_critical (cfg : QAConfig) (agent_id : String)
    (output : Payload) (f : String)
    (hf : f ∈ required_fields agent_id) (hmiss : lookupP output f = none)
    (r : QAReport) (hok : validate_agent_output cfg agent_id output = .ok r) :
    r.passed = false ∧ r.corrected = false ∧ r.corrected_output = none ∧
    ("Missing required field: " ++ f) ∈ r.errors ∧
    _is_critical_error r.errors = true := by
  have hmem : ("Missing required field: " ++ f) ∈ missing_field_errors agent_id output :=
    List.mem_filterMap.mpr ⟨f, hf, by simp [hmiss]⟩
  unfold validate_agent_output at hok
  cases hts : type_specific_checks cfg agent_id output (missing_field_errors agent_id output) with
  | error e => rw [hts] at hok; simp [Except.map] at hok
  | ok ew =>
    rw [hts] at hok
    simp [Except.map] at hok
    obtain ⟨tail, htail⟩ := type_specific_checks_extends cfg agent_id output _ ew hts
    have hmem' : ("Missing required field: " ++ f) ∈ ew.1 := by
      rw [htail]; exact List.mem_append_left _ hmem
    have hcrit : _is_critical_error ew.1 = true := by
      refine List.any_eq_true.mpr ⟨_, hmem', ?_⟩
      simp [critical_patterns, patternMatches_missing_field f]
    have hne : ew.1.isEmpty = false := by
      cases hew : ew.1 with
      | nil => rw [hew] at hmem'; cases hmem'
      | cons a l => rfl
    subst hok
    refine ⟨?_, ?_, ?_, hmem', hcrit⟩ <;>
      simp [assemble_report, correction_attempt, hcrit, hne]

/-- C1 witness: the theorem applied to the "semantic_analysis" rules and the
empty output, which is missing the required "analysis" field. -/
theorem C1_witness :
    ({ passed := false,
       errors := ["Missing required field: analysis", "Missing required field: significance"],
       warnings := ["Low significance score: 0 < 5"],
       corrected := false, corrected_output := none } : QAReport).passed = false ∧
    ({ passed := false,
       errors := ["Missing required field: analysis", "Missing required field: significance"],
       warnings := ["Low significance score: 0 < 5"],
       corrected := false, corrected_output := none } : QAReport).corrected = false := by
  have h := C1_missing_field_always_critical {} "semantic_analysis" [] "analysis"
    (by decide) rfl
    { passed := false,
      errors := ["Missing required field: analysis", "Missing required field: significance"],
      warnings := ["Low significance score: 0 < 5"],
      corrected := false, corrected_output := none }
    rfl
  exact ⟨h.1, h.2.1⟩

/-- A "knowledge_graph" output that has all required fields yet an empty
entities list. -/
def kg_complete_output : Payload :=
  [("entities", Value.vList []), ("relations", Value.vList [])]

/-- C4 counterexample: the claim "no missing required fields implies
corrected = false" is false on the code. For agent id "knowledge_graph" and
the payload {entities: [], relations: []} (which has every required field),
the "Insufficient entities" error is non-critical, auto-correction runs, the
corrected dict is non-empty, and the report carries corrected = true — even
though the corrected payload equals the input unchanged. -/
theorem C4_counterexample :
    (∀ f ∈ required_fields "knowledge_graph", (lookupP kg_complete_output f).isSome) ∧
    validate_agent_output {} "knowledge_graph" kg_complete_output =
      .ok { passed := false, errors := ["Insufficient entities: 0 < 1"], warnings := [],
            corrected := true, corrected_output := some kg_complete_output } := by
  constructor
  · decide
  · rfl

/-- C4 amended: auto-correction applied to an already-complete payload is the
identity (any corrected payload equals the input unchanged), and for every
agent id other than "knowledge_graph" the report also has corrected = false
with no corrected payload; for "knowledge_graph" a complete payload with
fewer than one entity yields corrected = true with the input itself as the
corrected payload. -/
theorem C4_amended_correction_identity (cfg : QAConfig) (agent_id : String)
    (output : Payload) (r : QAReport)
    (hcomplete : ∀ f ∈ required_fields agent_id, (lookupP output f).isSome)
    (hok : validate_agent_output cfg agent_id output = .ok r) :
    (∀ p, r.corrected_output = some p → p = output) ∧
    (agent_id ≠ "knowledge_graph" → r.corrected = false ∧ r.corrected_output = none) := by
  have hid := auto_correction_complete_id agent_id output hcomplete
  have hmiss_nil : missing_field_errors agent_id output = [] := by
    unfold missing_field_errors
    refine List.filterMap_eq_nil_iff.mpr (fun f hf => ?_)
    cases hlook : lookupP output f with
    | none =>
      have := hcomplete f hf
      rw [hlook] at this
      simp at this
    | some v => simp [hlook]
  unfold validate_agent_output at hok
  cases hts : type_specific_checks cfg agent_id output (missing_field_errors agent_id output) with
  | error e => rw [hts] at hok; simp [Except.map] at hok
  | ok ew =>
    rw [hts] at hok
    simp [Except.map] at hok
    subst hok
    constructor
    · intro p hp
      rcases assemble_report_corrected_output cfg agent_id output ew with hco | hco <;>
        rw [hco] at hp
      · cases hp
      · rw [hid] at hp; exact (Option.some_inj.mp hp).symm
    · intro hkg
      have hew : ew.1 = [] := by
        rw [type_specific_checks_non_kg cfg agent_id output _ ew hkg hts, hmiss_nil]
      constructor <;> simp [assemble_report, correction_attempt, hew]

/-- C4 amended witness: the theorem applied to a complete "semantic_analysis"
output. -/
theorem C4_amended_witness :
    ({ passed := true, errors := [], warnings := [], corrected := false,
       corrected_output := none } : QAReport).corrected = false := by
  have h := C4_amended_correction_identity {} "semantic_analysis"
    [("analysis", Value.vStr "ok"), ("significance", Value.vInt 9)]
    { passed := true, errors := [], warnings := [], corrected := false,
      corrected_output := none }
    (by decide) rfl
  exact (h.2 (by decide)).1

/-- C10: validate_agent_output on an agent id outside the built-in rule table
("semantic_analysis", "knowledge_graph", "workflow") accepts any output:
passed = true, no errors, no warnings, corrected = false. -/
theorem C10_unknown_agent_accepts (cfg : QAConfig) (agent_id : String) (output : Payload)
    (h : agent_id ∉ ["semantic_analysis", "knowledge_graph", "workflow"]) :
    validate_agent_output cfg agent_id output =
      .ok { passed := true, errors := [], warnings := [], corrected := false,
            corrected_output := none } := by
  simp only [List.mem_cons, List.not_mem_nil, or_false, not_or] at h
  obtain ⟨h1, h2, _⟩ := h
  simp [validate_agent_output, type_specific_checks, missing_field_errors,
        required_fields, assemble_report, correction_attempt, h1, h2, Except.map]

/-- C10 witness: the theorem applied to the unregistered agent id
"web_search" and a nontrivial output. -/
theorem C10_witness :
    validate_agent_output {} "web_search" [("answer", Value.vInt 42)] =
      .ok { passed := true, errors := [], warnings := [], corrected := false,
            corrected_output := none } :=
  C10_unknown_agent_accepts {} "web_search" [("answer", Value.vInt 42)] (by decide)

/-! ### Event dispatch bus (src/agents/base.py) -/

/-- Outcome of invoking a registered Python handler: it returns a value
(possibly Python None) or raises. -/
inductive HandlerResult where
  | ret : Option Value → HandlerResult
  | exn : String → HandlerResult

/-- A registered event handler. -/
abbrev Handler := Payload → HandlerResult

/-- An agent's event-handler map (BaseAgent._event_handlers). -/
abbrev AgentHandlers := List (String × Handler)

/-- The system agent registry (system.agents), name to handler map. -/
abbrev AgentMap := List (String × AgentHandlers)

/-- Association-list lookup for the two dispatch tables. -/
def lookupS {α : Type} (m : List (String × α)) (k : String) : Option α :=
  match m with
  | [] => none
  | (k₀, v) :: rest => if k₀ = k then some v else lookupS rest k

/-- BaseAgent.handle_event: call the handler registered for the event type if
there is one, re-raising any exception it raises; with no handler registered,
log at debug level and return None. -/
def handle_event (handlers : AgentHandlers) (event_type : String) (data : Payload) :
    Except String (Option Value) :=
  match lookupS handlers event_type with
  | some h =>
    match h data with
    | .ret v => .ok v
    | .exn m => .error m
  | none => .ok none

/-- BaseAgent.send_event: look up the target agent by name; if missing, log a
warning and return None; otherwise delegate to the target agent handle_event. -/
def send_event (agents : AgentMap) (target_agent : String) (event_type : String)
    (data : Payload) : Except String (Option Value) :=
  match lookupS agents target_agent with
  | some handlers => handle_event handlers event_type data
  | none => .ok none

/-- A registry with one agent whose handler for "ev" returns Python None. -/
def none_returning_agents : AgentMap := [("a", [("ev", fun _ => .ret none)])]

/-- C8 counterexample: the claim's "exactly when" fails on the code. Here the
target "a" is registered and has a handler entry for "ev", yet send_event
returns None, because the handler itself returns None and send_event cannot
distinguish that value from the absent marker. -/
theorem C8_counterexample :
    send_event none_returning_agents "a" "ev" [] = .ok none ∧
    ∃ hs, lookupS none_returning_agents "a" = some hs ∧
      (lookupS hs "ev").isSome = true :=
  ⟨rfl, [("ev", fun _ => .ret none)], rfl, rfl⟩

/-- C8 amended: send_event returns None exactly when the target is not
registered, the target has no handler entry for the event type, or the
registered handler itself returns None — none of these raises toward the
caller; and when the handler raises, that exception propagates uncaught to
the direct caller. -/
theorem C8_amended (agents : AgentMap) (target event_type : String) (data : Payload) :
    (send_event agents target event_type data = .ok none ↔
      lookupS agents target = none ∨
      ∃ hs, lookupS agents target = some hs ∧
        (lookupS hs event_type = none ∨
         ∃ h, lookupS hs event_type = some h ∧ h data = .ret none)) ∧
    (∀ hs h m, lookupS agents target = some hs → lookupS hs event_type = some h →
       h data = .exn m → send_event agents target event_type data = .error m) := by
  refine ⟨?_, ?_⟩
  · cases ha : lookupS agents target with
    | none => simp [send_event, handle_event, ha]
    | some hs =>
      cases he : lookupS hs event_type with
      | none => simp [send_event, handle_event, ha, he]
      | some h =>
        cases hr : h data with
        | ret v => simp [send_event, handle_event, ha, he, hr]
        | exn m => simp [send_event, handle_event, ha, he, hr]
  · intro hs h m hhs hh hexn
    simp [send_event, handle_event, hhs, hh, hexn]

/-- C8 amended witness: an unregistered target yields None, through the
amended equivalence. -/
theorem C8_amended_witness :
    send_event none_returning_agents "ghost" "ev" [] = .ok none :=
  (C8_amended none_returning_agents "ghost" "ev" []).1.mpr (Or.inl rfl)

/-! ### Workflow-name resolution
(src/working_mcp_server.py execute_workflow / _execute_simple_workflow,
names from src/config/agent_config.py get_workflow_definitions) -/

/-- The workflow names defined by AgentConfig.get_workflow_definitions. -/
def workflow_definition_names : List String :=
  ["complete_semantic_analysis", "incremental_analysis", "conversation_analysis",
   "repository_analysis", "code-analysis", "insight-generation"]

/-- The workflow names the configuration-less fallback advertises in its
"available_workflows" error field. -/
def simple_workflow_names : List String :=
  ["complete-analysis", "lele", "lessons-learned"]

/-- The seven agents the system constructs at startup
(AgentConfig.get_agent_definitions). -/
def all_seven_agents : List String :=
  ["coordinator", "semantic_analysis", "knowledge_graph", "web_search",
   "synchronization", "deduplication", "documentation"]

/-- How execute_workflow in working_mcp_server.py disposes of a requested
workflow name. -/
inductive ResolveOutcome where
  | noCoordinator : ResolveOutcome
  | runKnown : String → ResolveOutcome
  | unknownWorkflow : List String → ResolveOutcome
  | simpleSteps : List String → ResolveOutcome
  | simpleUnknown : List String → ResolveOutcome
deriving DecidableEq, Repr

/-- The resolution logic of execute_workflow: without a coordinator, an error;
with the configuration module, a name is either found among the configured
workflow definitions or rejected with the available list; without the
configuration module, _execute_simple_workflow recognizes only
"complete-analysis" (three hard-coded agent steps, each skipped when its
agent is absent) and "lele"/"lessons-learned" (one documentation step,
falling through to the unknown error when the documentation agent is absent);
every other name is rejected. -/
def resolve_workflow (coordinator_available config_available : Bool)
    (agents : List String) (workflow_name : String) : ResolveOutcome :=
  if !coordinator_available then .noCoordinator
  else if config_available then
    if workflow_name ∈ workflow_definition_names then .runKnown workflow_name
    else .unknownWorkflow workflow_definition_names
  else
    if workflow_name = "complete-analysis" then
      .simpleSteps (["semantic_analysis", "knowledge_graph", "synchronization"].filter
        (fun a => a ∈ agents))
    else if workflow_name = "lele" || workflow_name = "lessons-learned" then
      if "documentation" ∈ agents then .simpleSteps ["documentation"]
      else .simpleUnknown simple_workflow_names
    else .simpleUnknown simple_workflow_names

/-- C9 counterexample: no descriptor is ever synthesized for an unknown
workflow name, and none of the alias names the claim lists is recognized.
"full-analysis", "quick-analysis", "simple-analysis" and an arbitrary unknown
name are all rejected with an error listing the available workflows — in both
the configured and the configuration-less mode — instead of resolving to a
synthesized or fixed descriptor. -/
theorem C9_counterexample :
    resolve_workflow true true all_seven_agents "full-analysis"
      = .unknownWorkflow workflow_definition_names ∧
    resolve_workflow true false all_seven_agents "full-analysis"
      = .simpleUnknown simple_workflow_names ∧
    resolve_workflow true true all_seven_agents "quick-analysis"
      = .unknownWorkflow workflow_definition_names ∧
    resolve_workflow true false all_seven_agents "quick-analysis"
      = .simpleUnknown simple_workflow_names ∧
    resolve_workflow true false all_seven_agents "simple-analysis"
      = .simpleUnknown simple_workflow_names ∧
    resolve_workflow true true all_seven_agents "my-custom-workflow"
      = .unknownWorkflow workflow_definition_names ∧
    resolve_workflow true false all_seven_agents "my-custom-workflow"
      = .simpleUnknown simple_workflow_names := by
  decide

/-- C9 amended: a request naming a workflow unknown to the catalog is
rejected with an error carrying the list of available workflows; no
descriptor is synthesized. Only the configuration-less fallback recognizes
extra literal names: "complete-analysis" (three hard-coded steps, filtered to
the agents present) and "lele"/"lessons-learned" (a single documentation
step when that agent exists). -/
theorem C9_amended (agents : List String) (workflow_name : String)
    (h1 : workflow_name ∉ workflow_definition_names)
    (h2 : workflow_name ∉ simple_workflow_names) :
    resolve_workflow true true agents workflow_name
      = .unknownWorkflow workflow_definition_names ∧
    resolve_workflow true false agents workflow_name
      = .simpleUnknown simple_workflow_names ∧
    resolve_workflow true false agents "complete-analysis"
      = .simpleSteps (["semantic_analysis", "knowledge_graph", "synchronization"].filter
          (fun a => a ∈ agents)) ∧
    ("documentation" ∈ agents →
      resolve_workflow true false agents "lele" = .simpleSteps ["documentation"]) := by
  have hne : workflow_name ≠ "complete-analysis" ∧ workflow_name ≠ "lele" ∧
      workflow_name ≠ "lessons-learned" := by
    simp [simple_workflow_names] at h2
    exact h2
  refine ⟨?_, ?_, ?_, ?_⟩
  · simp [resolve_workflow, h1]
  · simp [resolve_workflow, hne.1, hne.2.1, hne.2.2]
  · simp [resolve_workflow]
  · intro hdoc; simp [resolve_workflow, hdoc]

/-- C9 amended witness: the theorem applied to the full agent set and an
unknown name. -/
theorem C9_amended_witness :
    resolve_workflow true false all_seven_agents "nonexistent-workflow"
      = .simpleUnknown simple_workflow_names ∧
    resolve_workflow true false all_seven_agents "lele"
      = .simpleSteps ["documentation"] := by
  have h := C9_amended all_seven_agents "nonexistent-workflow" (by decide) (by decide)
  exact ⟨h.2.1, h.2.2.2 (by decide)⟩

/-! ### The active-workflows table and the workflow-history list
(src/agents/coordinator.py, CoordinatorAgent)

Execution identifiers (uuid4 strings) are modelled as opaque natural-number
tokens; the two collections are modelled by the identifiers they hold, which
is what the exactly-one-collection invariant speaks about. Transitions happen
at the granularity asyncio guarantees: every group of statements between
suspension points (a dispatch await, the monitor sleep) runs atomically, and
the observable instants are the states between such segments. -/

/-- The history cap (max_history in CoordinatorAgent._workflow_monitor). -/
def max_history : Nat := 100

/-- One atomic collection-mutating segment of the coordinator:
* create: execute_workflow building an execution and registering it in
  active_workflows before spawning its run task;
* finalize: _complete_workflow, run at most once by the owning run task
  (append to history, then delete from active if still present);
* fatalAbort: the run-loop exception path, which marks the execution failed
  but touches neither collection;
* cancel: _handle_cancel_workflow (moves an active execution to history; on
  a non-active id it raises and changes nothing);
* forceFail: the monitor sweep force-failing one overdue active execution;
* trimHistory: the monitor sweep history cap (keep the last max_history). -/
inductive CoordEvent where
  | create : Nat → CoordEvent
  | finalize : Nat → CoordEvent
  | fatalAbort : Nat → CoordEvent
  | cancel : Nat → CoordEvent
  | forceFail : Nat → CoordEvent
  | trimHistory : CoordEvent
deriving DecidableEq, Repr

/-- The coordinator collections: the key set of the active_workflows dict and
the workflow_history list, plus bookkeeping of which ids were ever created
and which run tasks have already finalized. -/
structure CoordState where
  active : List Nat
  history : List Nat
  created : List Nat
  finalized : List Nat
deriving DecidableEq, Repr

/-- The coordinator starts with both collections empty. -/
def initState : CoordState := ⟨[], [], [], []⟩

/-- The collection effect of one atomic event. -/
def stepEvent (s : CoordState) : CoordEvent → CoordState
  | .create id => { s with active := s.active ++ [id], created := s.created ++ [id] }
  | .finalize id =>
      { s with history := s.history ++ [id], active := s.active.erase id,
               finalized := s.finalized ++ [id] }
  | .fatalAbort _ => s
  | .cancel id =>
      if id ∈ s.active then
        { s with history := s.history ++ [id], active := s.active.erase id }
      else s
  | .forceFail id =>
      if id ∈ s.active then
        { s with history := s.history ++ [id], active := s.active.erase id }
      else s
  | .trimHistory =>
      if s.history.length > max_history then
        { s with history := s.history.drop (s.history.length - max_history) }
      else s

/-- Whether an event can fire in a state: execution ids are fresh uuid4
values, and a run task belongs to a created execution and finalizes at most
once. -/
def okEvent (s : CoordState) : CoordEvent → Bool
  | .create id => decide (id ∉ s.created)
  | .finalize id => decide (id ∈ s.created) && decide (id ∉ s.finalized)
  | _ => true

/-- Run a sequence of events from a state. -/
def runFrom (s : CoordState) (tr : List CoordEvent) : CoordState :=
  tr.foldl stepEvent s

/-- Check that every event of the sequence can fire where it occurs. -/
def validFrom (s : CoordState) : List CoordEvent → Bool
  | [] => true
  | ev :: rest => okEvent s ev && validFrom (stepEvent s ev) rest

/-- The state after a trace from startup. -/
def runTrace (tr : List CoordEvent) : CoordState := runFrom initState tr

/-- A trace the running system can produce from startup. -/
def validTrace (tr : List CoordEvent) : Bool := validFrom initState tr

/-- Structural invariant of the two collections: the active table has no
duplicate keys, both collections hold only created ids, and no id is in both
collections at once. -/
structure CoordInv (s : CoordState) : Prop where
  nodupActive : s.active.Nodup
  activeCreated : ∀ id ∈ s.active, id ∈ s.created
  historyCreated : ∀ id ∈ s.history, id ∈ s.created
  notBoth : ∀ id, ¬(id ∈ s.active ∧ id ∈ s.history)

theorem coordInv_init : CoordInv initState :=
  ⟨List.nodup_nil, by simp [initState], by simp [initState], by simp [initState]⟩

/-- Moving an id out of active into history preserves the invariant, provided
the id is created. -/
theorem coordInv_move (s : CoordState) (id : Nat) (fin : List Nat) (hinv : CoordInv s)
    (hc : id ∈ s.created) :
    CoordInv ⟨s.active.erase id, s.history ++ [id], s.created, fin⟩ := by
  refine ⟨hinv.nodupActive.erase id, ?_, ?_, ?_⟩
  · intro j hj
    exact hinv.activeCreated j (List.mem_of_mem_erase hj)
  · intro j hj
    rcases List.mem_append.mp hj with hh | hh
    · exact hinv.historyCreated j hh
    · simp at hh; subst hh; exact hc
  · intro j ⟨hja, hjh⟩
    have hj := (hinv.nodupActive.mem_erase_iff).mp hja
    rcases List.mem_append.mp hjh with hh | hh
    · exact hinv.notBoth j ⟨hj.2, hh⟩
    · simp at hh; exact hj.1 hh

/-- Every atomic event preserves the structural invariant. -/
theorem coordInv_step (s : CoordState) (ev : CoordEvent)
    (hinv : CoordInv s) (hok : okEvent s ev = true) : CoordInv (stepEvent s ev) := by
  cases ev with
  | create w =>
    simp only [stepEvent]
    simp [okEvent] at hok
    have hna : w ∉ s.active := fun h => hok (hinv.activeCreated w h)
    refine ⟨?_, ?_, ?_, ?_⟩
    · simpa [List.nodup_append, hna] using hinv.nodupActive
    · intro j hj
      rcases List.mem_append.mp hj with hh | hh
      · exact List.mem_append_left _ (hinv.activeCreated j hh)
      · simp at hh; subst hh; exact List.mem_append_right _ (by simp)
    · intro j hj
      exact List.mem_append_left _ (hinv.historyCreated j hj)
    · intro j ⟨hja, hjh⟩
      rcases List.mem_append.mp hja with hh | hh
      · exact hinv.notBoth j ⟨hh, hjh⟩
      · simp at hh; subst hh
        exact hok (hinv.historyCreated _ hjh)
  | finalize w =>
    simp only [stepEvent]
    simp [okEvent] at hok
    exact coordInv_move s w (s.finalized ++ [w]) hinv hok.1
  | fatalAbort w => exact hinv
  | cancel w =>
    simp only [stepEvent]
    split
    · exact coordInv_move s w s.finalized hinv (hinv.activeCreated w (by assumption))
    · exact hinv
  | forceFail w =>
    simp only [stepEvent]
    split
    · exact coordInv_move s w s.finalized hinv (hinv.activeCreated w (by assumption))
    · exact hinv
  | trimHistory =>
    simp only [stepEvent]
    split
    · refine ⟨hinv.nodupActive, hinv.activeCreated, ?_, ?_⟩
      · intro j hj
        exact hinv.historyCreated j (List.mem_of_mem_drop hj)
      · intro j ⟨hja, hjh⟩
        exact hinv.notBoth j ⟨hja, List.mem_of_mem_drop hjh⟩
    · exact hinv

/-- The invariant holds along every valid trace. -/
theorem coordInv_runFrom (tr : List CoordEvent) (s : CoordState)
    (hinv : CoordInv s) (hvalid : validFrom s tr = true) : CoordInv (runFrom s tr) := by
  induction tr generalizing s with
  | nil => exact hinv
  | cons ev rest ih =>
    simp only [validFrom, Bool.and_eq_true] at hvalid
    exact ih (stepEvent s ev) (coordInv_step s ev hinv hvalid.1) hvalid.2

/-- An id is in at least one of the two collections. -/
def inSome (s : CoordState) (id : Nat) : Prop := id ∈ s.active ∨ id ∈ s.history

/-- Every event except the history trim keeps every created id in at least
one collection. -/
theorem inSome_step (s : CoordState) (ev : CoordEvent)
    (hnotrim : ev ≠ .trimHistory)
    (h : ∀ id ∈ s.created, inSome s id) :
    ∀ id ∈ (stepEvent s ev).created, inSome (stepEvent s ev) id := by
  cases ev with
  | create w =>
    simp only [stepEvent]
    intro j hj
    rcases List.mem_append.mp hj with hh | hh
    · rcases h j hh with ha | hb
      · exact Or.inl (List.mem_append_left _ ha)
      · exact Or.inr hb
    · simp at hh; subst hh
      exact Or.inl (List.mem_append_right _ (by simp))
  | finalize w =>
    simp only [stepEvent]
    intro j hj
    rcases h j hj with ha | hb
    · by_cases hji : j = w
      · subst hji; exact Or.inr (List.mem_append_right _ (by simp))
      · exact Or.inl ((List.mem_erase_of_ne hji).mpr ha)
    · exact Or.inr (List.mem_append_left _ hb)
  | fatalAbort w => exact h
  | cancel w =>
    simp only [stepEvent]
    split
    · intro j hj
      rcases h j hj with ha | hb
      · by_cases hji : j = w
        · subst hji; exact Or.inr (List.mem_append_right _ (by simp))
        · exact Or.inl ((List.mem_erase_of_ne hji).mpr ha)
      · exact Or.inr (List.mem_append_left _ hb)
    · exact h
  | forceFail w =>
    simp only [stepEvent]
    split
    · intro j hj
      rcases h j hj with ha | hb
      · by_cases hji : j = w
        · subst hji; exact Or.inr (List.mem_append_right _ (by simp))
        · exact Or.inl ((List.mem_erase_of_ne hji).mpr ha)
      · exact Or.inr (List.mem_append_left _ hb)
    · exact h
  | trimHistory => exact absurd rfl hnotrim

/-- Along a trim-free trace, every created id stays in at least one
collection. -/
theorem inSome_runFrom (tr : List CoordEvent) (s : CoordState)
    (hnotrim : CoordEvent.trimHistory ∉ tr)
    (h : ∀ id ∈ s.created, inSome s id) :
    ∀ id ∈ (runFrom s tr).created, inSome (runFrom s tr) id := by
  induction tr generalizing s with
  | nil => exact h
  | cons ev rest ih =>
    simp only [List.mem_cons, not_or] at hnotrim
    exact ih (stepEvent s ev) hnotrim.2
      (inSome_step s ev (fun he => hnotrim.1 he.symm) h)

/-- A system run that creates and finalizes max_history + 1 executions
before any monitor sweep fires. -/
def over_cap_trace : List CoordEvent :=
  (List.range (max_history + 1)).flatMap
    (fun i => [CoordEvent.create i, CoordEvent.finalize i])

/-- The same run followed by one monitor history trim. -/
def evict_trace : List CoordEvent := over_cap_trace ++ [CoordEvent.trimHistory]

set_option maxRecDepth 100000 in
/-- C2 counterexample: the exactly-one-collection claim fails on the code
once the history cap evicts an execution. After 101 executions complete and
the monitor trims the history, execution 0 was created but sits in neither
the active table nor the history list. -/
theorem C2_counterexample :
    validTrace evict_trace = true ∧
    0 ∈ (runTrace evict_trace).created ∧
    0 ∉ (runTrace evict_trace).active ∧
    0 ∉ (runTrace evict_trace).history := by
  decide

/-- C2 amended: along every valid trace, no execution is ever in both
collections at once, and — as long as the monitor history trim has not fired
— every created execution is in at least one of them (hence in exactly one);
the trim can leave old finalized executions in neither collection. -/
theorem C2_amended (tr : List CoordEvent) (hvalid : validTrace tr = true) :
    (∀ id, ¬(id ∈ (runTrace tr).active ∧ id ∈ (runTrace tr).history)) ∧
    (CoordEvent.trimHistory ∉ tr →
      ∀ id ∈ (runTrace tr).created,
        id ∈ (runTrace tr).active ∨ id ∈ (runTrace tr).history) := by
  constructor
  · exact (coordInv_runFrom tr initState coordInv_init hvalid).notBoth
  · intro hnotrim
    exact inSome_runFrom tr initState hnotrim (by simp [initState, inSome])

/-- C2 amended witness: the theorem applied to a one-event trace. -/
theorem C2_amended_witness :
    ¬(0 ∈ (runTrace [CoordEvent.create 0]).active ∧
        0 ∈ (runTrace [CoordEvent.create 0]).history) ∧
    (0 ∈ (runTrace [CoordEvent.create 0]).active ∨
        0 ∈ (runTrace [CoordEvent.create 0]).history) := by
  have h := C2_amended [CoordEvent.create 0] (by decide)
  exact ⟨h.1 0, h.2 (by decide) 0 (by decide)⟩

set_option maxRecDepth 100000 in
/-- C5 counterexample: the at-every-instant cap claim fails on the code. The
history list is bounded only by the monitor sweep; between sweeps run-task
finalizations push it past the configured maximum, as after 101 completed
executions with no sweep: an observable instant with history length 101. -/
theorem C5_counterexample :
    validTrace over_cap_trace = true ∧
    max_history < (runTrace over_cap_trace).history.length := by
  decide

/-- C5 amended: the history cap is enforced only by the monitor sweep:
immediately after a trim the history holds at most max_history executions,
the survivors are exactly the most recent ones in insertion order — so the
evicted entries are exactly the oldest (strict FIFO) — and the active table
is untouched; between sweeps the history can exceed the cap. -/
theorem C5_amended (s : CoordState) :
    (stepEvent s .trimHistory).history.length ≤ max_history ∧
    (stepEvent s .trimHistory).history = s.history.drop (s.history.length - max_history) ∧
    (stepEvent s .trimHistory).active = s.active := by
  simp only [stepEvent]
  by_cases h : s.history.length > max_history
  · rw [if_pos h]
    refine ⟨?_, rfl, rfl⟩
    simp only [List.length_drop]
    omega
  · rw [if_neg h]
    have h0 : s.history.length - max_history = 0 := by omega
    refine ⟨by omega, ?_, rfl⟩
    rw [h0, List.drop_zero]

/-! ### The workflow run loop
(src/agents/coordinator.py: execute_workflow, _execute_workflow_steps,
_execute_step, _complete_workflow)

The run loop drives one execution. Interaction with the outside is the
dispatched agent call of each step; its outcome (a result payload, a timeout
of the wait, or an exception from the handler) is parameterized by an oracle
`behave` indexed by step position, which ranges over every behavior the
registered handlers could exhibit. Each straight-line segment between
dispatch awaits runs atomically; `RunResult.trace` collects the execution
states observable at the suspension points. -/

/-- StepStatus in coordinator.py. -/
inductive StepStatus where
  | pending
  | running
  | completed
  | failed
  | skipped
deriving DecidableEq, Repr

/-- WorkflowStatus in coordinator.py. -/
inductive WorkflowStatus where
  | pending
  | running
  | completed
  | failed
  | cancelled
deriving DecidableEq, Repr

/-- WorkflowStep in coordinator.py. -/
structure WorkflowStep where
  agent : String
  action : String
  timeout : Int := 60
  status : StepStatus := .pending
  result : Option Payload := none
  error : Option String := none
  start_time : Option Nat := none
  end_time : Option Nat := none

/-- The config bag of a workflow definition, with the keys the engine reads
(`config.get(key, default)`); max_retries appears in the workflow config bags
of src/workflows/*.py and is carried here precisely because the engine never
reads it. -/
structure WConfig where
  qa_validation : Bool := false
  allow_partial_completion : Bool := false
  max_duration : Int := 600
  max_retries : Option Int := none

/-- WorkflowExecution in coordinator.py. -/
structure WorkflowExecution where
  id : String
  name : String
  description : String
  steps : List WorkflowStep
  status : WorkflowStatus := .pending
  parameters : Payload
  config : WConfig
  start_time : Option Nat := none
  end_time : Option Nat := none
  current_step_index : Nat := 0
  results : List (String × Payload) := []
  qa_reports : List QAReport := []

/-- A step spec of a workflow definition ({"agent": ..., "action": ...,
"timeout": ...}). -/
structure StepSpec where
  agent : String
  action : String
  timeout : Int := 60

/-- A catalog workflow definition (WorkflowDefinition in agent_config.py). -/
structure WorkflowDef where
  description : String
  steps : List StepSpec
  config : WConfig

/-- The synchronous part of CoordinatorAgent.execute_workflow: build the
execution record with pending steps and register it before spawning the run
task. -/
def execute_workflow_record (wid wname : String) (wd : WorkflowDef) (params : Payload)
    (t : Nat) : WorkflowExecution :=
  { id := wid
    name := wname
    description := wd.description
    steps := wd.steps.map (fun sp =>
      { agent := sp.agent, action := sp.action, timeout := sp.timeout })
    status := .pending
    parameters := params
    config := wd.config
    start_time := some t }

/-- The outcome of the awaited dispatch of one step: the agent handler
returns a payload, the wait times out, or the handler raises. -/
inductive StepOutcome where
  | ok : Payload → StepOutcome
  | timeout : StepOutcome
  | exn : String → StepOutcome

/-- Python repr of a list of strings, as an f-string interpolates it into the
"QA validation failed" step error. -/
def pyReprStrList (errors : List String) : String :=
  "[" ++ String.intercalate ", " (errors.map (fun e => "\x27" ++ e ++ "\x27")) ++ "]"

/-- The default min_completeness threshold (the Python float 0.8), as the
exact rational 4/5. -/
def default_min_completeness : Rat := ⟨4, 5, by decide, by decide⟩

/-- The Python comparison completed/total < minComp, computed exactly by
cross-multiplication (the source compares small-integer ratios as floats,
which agrees with the exact comparison for these operands); a workflow with
no steps has completeness 0. -/
def completeness_below (completed total : Nat) (minComp : Rat) : Bool :=
  if total = 0 then 0 < minComp.num
  else (completed : Int) * minComp.den < minComp.num * total

/-- QualityAssurance.validate_workflow. The dict it returns has no
"corrected"/"corrected_output" keys and only its "passed" entry is ever read,
so the report reuses QAReport with corrected = false; the numeric rendering
inside the completeness error text is abstracted. -/
def validate_workflow_report (cfg : QAConfig) (e : WorkflowExecution) : QAReport :=
  let completed := (e.steps.filter (fun s => s.status = StepStatus.completed)).length
  let minComp := cfg.min_completeness.getD default_min_completeness
  let errors1 := if completeness_below completed e.steps.length minComp then
      ["Workflow incomplete: " ++ toString completed ++ "/" ++ toString e.steps.length
        ++ " below minimum"]
    else []
  let failedSteps := e.steps.filter (fun s => s.status = StepStatus.failed)
  let errors2 := failedSteps.map (fun s =>
    "Step failed: " ++ s.agent ++ "." ++ s.action ++ " - " ++ (s.error.getD "None"))
  let warnings := e.steps.filterMap (fun s =>
    match s.start_time, s.end_time with
    | some st, some en =>
      if (en : Int) - st > s.timeout then
        some ("Step timeout exceeded: " ++ s.agent ++ "." ++ s.action)
      else none
    | _, _ => none)
  { passed := (errors1 ++ errors2).isEmpty
    errors := errors1 ++ errors2
    warnings := warnings
    corrected := false
    corrected_output := none }

/-- CoordinatorAgent._complete_workflow minus the collection move (modelled
separately by the CoordEvent system): stamp the end time, run the final
validation, append its report, and set the overall status from it. -/
def complete_workflow (qacfg : QAConfig) (e : WorkflowExecution) (t : Nat) :
    WorkflowExecution :=
  let e1 := { e with end_time := some t }
  let finalqa := validate_workflow_report qacfg e1
  { e1 with qa_reports := e1.qa_reports ++ [finalqa]
            status := if finalqa.passed then .completed else .failed }

/-- The result of one run task: the final execution state, the execution
states observable at each suspension point, and whether _complete_workflow
ran (false on the execution-fatal abort paths, where the execution stays in
the active table for the monitor to reclaim). -/
structure RunResult where
  exec : WorkflowExecution
  trace : List WorkflowExecution
  finalized : Bool

/-- The step key under which a result is stored:
"step_{index}_{agent}_{action}". -/
def step_result_key (i : Nat) (agent action : String) : String :=
  "step_" ++ toString i ++ "_" ++ agent ++ "_" ++ action

/-- The iterations of _execute_workflow_steps from step index i, with `rest`
the remaining suffix of the execution steps, `acc` the observable states so
far, and `t` the logical clock. Each iteration mirrors _execute_step: mark
the step running and stamp its start; resolve the agent — when absent, the
ValueError("Agent not found: ...") is raised before the dispatch await, so
with no intervening suspension the step is recorded failed and the run-loop
top-level handler marks the execution failed without finalizing (no
observable state shows the step running); when present, the dispatch is
awaited (the state with the step running is observable) and its outcome is
handled: a timeout or handler exception fails the step and aborts the
execution; a result completes the step, then QA (when enabled) validates it —
a failed, uncorrected report with partial completion disallowed marks the
step failed with the validation errors and breaks to finalization; otherwise
the (possibly corrected) result is stored under its step key and the loop
advances. A TypeError raised inside validate_agent_output propagates to the
run-loop top-level handler, failing the execution without finalization. The
re-check of the step status after storing is dead code (the step is completed
on every path that stores), so the loop always advances there. -/
def run_steps (registry : List String) (behave : Nat → StepOutcome) (qacfg : QAConfig) :
    List WorkflowStep → Nat → WorkflowExecution → List WorkflowExecution → Nat → RunResult
  | [], _, e, acc, t =>
    { exec := complete_workflow qacfg e t, trace := acc, finalized := true }
  | s :: rest, i, e, acc, t =>
    let e0 := { e with current_step_index := i }
    let s1 := { s with status := StepStatus.running, start_time := some t }
    let e1 := { e0 with steps := e0.steps.set i s1 }
    if s.agent ∈ registry then
      match behave i with
      | .timeout =>
        let s2 := { s1 with
          status := StepStatus.failed
          error := some ("Step timeout after " ++ toString s.timeout ++ "s")
          end_time := some (t + 1) }
        { exec := { e1 with
            steps := e1.steps.set i s2
            status := .failed
            end_time := some (t + 1) }
          trace := acc ++ [e1]
          finalized := false }
      | .exn m =>
        let s2 := { s1 with
          status := StepStatus.failed
          error := some m
          end_time := some (t + 1) }
        { exec := { e1 with
            steps := e1.steps.set i s2
            status := .failed
            end_time := some (t + 1) }
          trace := acc ++ [e1]
          finalized := false }
      | .ok r =>
        let s2 := { s1 with
          status := StepStatus.completed
          result := some r
          end_time := some (t + 1) }
        let e2 := { e1 with steps := e1.steps.set i s2 }
        if e.config.qa_validation then
          match validate_agent_output qacfg s.agent r with
          | .error _ =>
            { exec := { e2 with status := .failed, end_time := some (t + 2) }
              trace := acc ++ [e1]
              finalized := false }
          | .ok report =>
            let e3 := { e2 with qa_reports := e2.qa_reports ++ [report] }
            if !report.passed && !report.corrected &&
               !e.config.allow_partial_completion then
              let s3 := { s2 with
                status := StepStatus.failed
                error := some ("QA validation failed: " ++ pyReprStrList report.errors) }
              let e4 := { e3 with steps := e3.steps.set i s3 }
              { exec := complete_workflow qacfg e4 (t + 2)
                trace := acc ++ [e1]
                finalized := true }
            else
              let stored := if report.corrected then report.corrected_output.getD r else r
              let e4 := { e3 with results := e3.results ++
                [(step_result_key i s.agent s.action, stored)] }
              run_steps registry behave qacfg rest (i + 1) e4 (acc ++ [e1]) (t + 2)
        else
          let e4 := { e2 with results := e2.results ++
            [(step_result_key i s.agent s.action, r)] }
          run_steps registry behave qacfg rest (i + 1) e4 (acc ++ [e1]) (t + 2)
    else
      let s2 := { s1 with
        status := StepStatus.failed
        error := some ("Agent not found: " ++ s.agent)
        end_time := some (t + 1) }
      { exec := { e1 with
          steps := e1.steps.set i s2
          status := .failed
          end_time := some (t + 1) }
        trace := acc
        finalized := false }

/-- One spawned run task over a freshly created execution: the spawn state is
observable when execute_workflow returns; the task sets the execution running
and iterates the steps. -/
def execute_workflow_run (registry : List String) (behave : Nat → StepOutcome)
    (qacfg : QAConfig) (e : WorkflowExecution) (t : Nat) : RunResult :=
  run_steps registry behave qacfg e.steps 0 { e with status := .running } [e] t

/-- The out-of-range default for step accessors (an index past the step list
reads as an untouched pending step). -/
def default_step : WorkflowStep := { agent := "", action := "" }

/-- The status of step k of an execution. -/
def statusAt (e : WorkflowExecution) (k : Nat) : StepStatus :=
  (e.steps.getD k default_step).status

/-- The recorded error of step k of an execution. -/
def errorAt (e : WorkflowExecution) (k : Nat) : Option String :=
  (e.steps.getD k default_step).error

/-- The recorded end time of step k of an execution. -/
def endTimeAt (e : WorkflowExecution) (k : Nat) : Option Nat :=
  (e.steps.getD k default_step).end_time

/-- The agent name of step k of an execution. -/
def agentAt (e : WorkflowExecution) (k : Nat) : String :=
  (e.steps.getD k default_step).agent

/-- The configured timeout of step k of an execution. -/
def timeoutAt (e : WorkflowExecution) (k : Nat) : Int :=
  (e.steps.getD k default_step).timeout

/-! ### List indexing facts used by the run-loop proofs -/

theorem getD_set_ne {α : Type} {i k : Nat} (h : i ≠ k) (l : List α) (v d : α) :
    (l.set i v).getD k d = l.getD k d := by
  induction l generalizing i k with
  | nil => rfl
  | cons a as ih =>
    cases i with
    | zero =>
      cases k with
      | zero => exact absurd rfl h
      | succ k2 => rfl
    | succ i2 =>
      cases k with
      | zero => rfl
      | succ k2 => exact ih (fun he => h (by rw [he]))

theorem getD_set_self {α : Type} {i : Nat} {l : List α} (h : i < l.length) (v d : α) :
    (l.set i v).getD i d = v := by
  induction l generalizing i with
  | nil => cases h
  | cons a as ih =>
    cases i with
    | zero => rfl
    | succ i2 => exact ih (Nat.lt_of_succ_lt_succ h)

theorem drop_cons_head {α : Type} {l : List α} {i : Nat} {s : α} {rest : List α}
    (h : l.drop i = s :: rest) (d : α) :
    l.getD i d = s ∧ i < l.length ∧ l.drop (i + 1) = rest := by
  induction l generalizing i with
  | nil => simp at h
  | cons a as ih =>
    cases i with
    | zero =>
      simp at h
      obtain ⟨h1, h2⟩ := h
      subst h1; subst h2
      exact ⟨rfl, by simp, rfl⟩
    | succ i2 =>
      obtain ⟨h1, h2, h3⟩ := ih (i := i2) h
      exact ⟨h1, Nat.succ_lt_succ h2, h3⟩

theorem drop_succ_set {α : Type} (l : List α) (i : Nat) (v : α) :
    (l.set i v).drop (i + 1) = l.drop (i + 1) := by
  induction l generalizing i with
  | nil => rfl
  | cons a as ih =>
    cases i with
    | zero => rfl
    | succ i2 => simpa using ih i2

/-- Finalization does not touch the step list. -/
theorem steps_complete_workflow (qacfg : QAConfig) (e : WorkflowExecution) (t : Nat) :
    (complete_workflow qacfg e t).steps = e.steps := rfl

/-- The loop from index i never shows step k running and, when it records a
non-pending status on step k, that status is the agent-not-found failure —
for any step k at or past i whose agent `aname` is unregistered, starting
from a state whose steps at or past i are untouched. -/
theorem run_steps_agent_missing (registry : List String) (behave : Nat → StepOutcome)
    (qacfg : QAConfig) (aname : String) (k : Nat) (rest : List WorkflowStep) (i : Nat)
    (e : WorkflowExecution) (acc : List WorkflowExecution) (t : Nat)
    (hrest : e.steps.drop i = rest)
    (hik : i ≤ k)
    (hname : agentAt e k = aname)
    (hag : aname ∉ registry)
    (hpend : ∀ m, i ≤ m → statusAt e m = StepStatus.pending)
    (hacc : ∀ x ∈ acc, statusAt x k ≠ StepStatus.running) :
    (∀ x ∈ (run_steps registry behave qacfg rest i e acc t).trace,
        statusAt x k ≠ StepStatus.running) ∧
    (statusAt (run_steps registry behave qacfg rest i e acc t).exec k ≠ StepStatus.pending →
      statusAt (run_steps registry behave qacfg rest i e acc t).exec k = StepStatus.failed ∧
      errorAt (run_steps registry behave qacfg rest i e acc t).exec k
        = some ("Agent not found: " ++ aname) ∧
      (run_steps registry behave qacfg rest i e acc t).exec.status = WorkflowStatus.failed ∧
      (run_steps registry behave qacfg rest i e acc t).finalized = false) := by
  induction rest generalizing i e acc t with
  | nil =>
    simp only [run_steps]
    exact ⟨hacc, fun hne => absurd (hpend k hik) hne⟩
  | cons s rest ih =>
    obtain ⟨hgd, hlen, hdrop⟩ := drop_cons_head hrest default_step
    have hagent_i : agentAt e i = s.agent := by unfold agentAt; rw [hgd]
    simp only [run_steps]
    by_cases hreg : s.agent ∈ registry
    · rw [if_pos hreg]
      have hik2 : i ≠ k := by
        intro h3
        rw [h3, hname] at hagent_i
        rw [← hagent_i] at hreg
        exact hag hreg
      have hik5 : i + 1 ≤ k := Nat.lt_of_le_of_ne hik hik2
      have hstat1 : ∀ v : WorkflowStep,
          ((e.steps.set i v).getD k default_step).status = StepStatus.pending := by
        intro v; rw [getD_set_ne hik2]; exact hpend k hik
      have hstat2 : ∀ v w : WorkflowStep,
          (((e.steps.set i v).set i w).getD k default_step).status = StepStatus.pending := by
        intro v w; rw [List.set_set, getD_set_ne hik2]; exact hpend k hik
      have hstat3 : ∀ v w u : WorkflowStep,
          ((((e.steps.set i v).set i w).set i u).getD k default_step).status
            = StepStatus.pending := by
        intro v w u; rw [List.set_set, List.set_set, getD_set_ne hik2]; exact hpend k hik
      have htr : ∀ E : WorkflowExecution, statusAt E k = StepStatus.pending →
          ∀ x ∈ acc ++ [E], statusAt x k ≠ StepStatus.running := by
        intro E hE x hx
        rcases List.mem_append.mp hx with hx | hx
        · exact hacc x hx
        · simp only [List.mem_singleton] at hx
          subst hx
          rw [hE]
          simp
      cases hb : behave i with
      | timeout =>
        exact ⟨htr _ (hstat1 _), fun hne => absurd (hstat2 _ _) hne⟩
      | exn m =>
        exact ⟨htr _ (hstat1 _), fun hne => absurd (hstat2 _ _) hne⟩
      | ok r =>
        by_cases hqa : e.config.qa_validation = true
        · simp only [hqa, if_true]
          cases hv : validate_agent_output qacfg s.agent r with
          | error msg =>
            exact ⟨htr _ (hstat1 _), fun hne => absurd (hstat2 _ _) hne⟩
          | ok report =>
            by_cases hbr : (!report.passed && !report.corrected
                && !e.config.allow_partial_completion) = true
            · simp only [hbr, if_true]
              exact ⟨htr _ (hstat1 _), fun hne => absurd (hstat3 _ _ _) hne⟩
            · rw [Bool.not_eq_true] at hbr
              simp only [hbr, Bool.false_eq_true, if_false]
              refine ih (i + 1) _ _ (t + 2) ?_ hik5 ?_ ?_ (htr _ (hstat1 _))
              · show ((e.steps.set i _).set i _).drop (i + 1) = rest
                rw [List.set_set, drop_succ_set]
                exact hdrop
              · show (((e.steps.set i _).set i _).getD k default_step).agent = aname
                rw [List.set_set, getD_set_ne hik2]
                exact hname
              · intro m hm
                show (((e.steps.set i _).set i _).getD m default_step).status
                  = StepStatus.pending
                rw [List.set_set, getD_set_ne (Nat.ne_of_lt hm)]
                exact hpend m (Nat.le_of_succ_le hm)
        · rw [Bool.not_eq_true] at hqa
          simp only [hqa, Bool.false_eq_true, if_false]
          refine ih (i + 1) _ _ (t + 2) ?_ hik5 ?_ ?_ (htr _ (hstat1 _))
          · show ((e.steps.set i _).set i _).drop (i + 1) = rest
            rw [List.set_set, drop_succ_set]
            exact hdrop
          · show (((e.steps.set i _).set i _).getD k default_step).agent = aname
            rw [List.set_set, getD_set_ne hik2]
            exact hname
          · intro m hm
            show (((e.steps.set i _).set i _).getD m default_step).status = StepStatus.pending
            rw [List.set_set, getD_set_ne (Nat.ne_of_lt hm)]
            exact hpend m (Nat.le_of_succ_le hm)
    · rw [if_neg hreg]
      by_cases hik2 : i = k
      · subst hik2
        refine ⟨hacc, fun _ => ?_⟩
        have hset : ∀ v w : WorkflowStep,
            ((e.steps.set i v).set i w).getD i default_step = w := by
          intro v w
          rw [List.set_set]
          exact getD_set_self hlen _ _
        refine ⟨?_, ?_, rfl, rfl⟩
        · show (((e.steps.set i _).set i _).getD i default_step).status = StepStatus.failed
          rw [hset]
        · show (((e.steps.set i _).set i _).getD i default_step).error
            = some ("Agent not found: " ++ aname)
          rw [hset, ← hname, hagent_i]
      · refine ⟨hacc, fun hne => absurd ?_ hne⟩
        show (((e.steps.set i _).set i _).getD k default_step).status = StepStatus.pending
        rw [List.set_set, getD_set_ne hik2]
        exact hpend k hik

/-- getD over a list of steps that are all pending yields a pending step. -/
theorem statusAt_all {L : List WorkflowStep}
    (h : ∀ x ∈ L, x.status = StepStatus.pending) (m : Nat) :
    (L.getD m default_step).status = StepStatus.pending := by
  induction L generalizing m with
  | nil => rfl
  | cons a as ih =>
    cases m with
    | zero => exact h a (by simp)
    | succ m2 => exact ih (fun x hx => h x (by simp [hx])) m2

/-- Every step of a freshly built execution record is pending. -/
theorem statusAt_record (wid wname : String) (wd : WorkflowDef) (params : Payload)
    (t : Nat) (m : Nat) :
    statusAt (execute_workflow_record wid wname wd params t) m = StepStatus.pending := by
  refine statusAt_all ?_ m
  intro x hx
  simp only [execute_workflow_record, List.mem_map] at hx
  obtain ⟨sp, _, rfl⟩ := hx
  rfl

/-- C3: when step k of a workflow names an agent absent from the registry, a
run reaching that step (its final state shows step k no longer pending) ends
the execution failed, records status failed on step k with the error
"Agent not found: {name}", and skips finalization — and no observable state
of the run ever shows step k with status running. -/
theorem C3_agent_not_found (registry : List String) (behave : Nat → StepOutcome)
    (qacfg : QAConfig) (wid wname : String) (wd : WorkflowDef) (params : Payload)
    (t : Nat) (k : Nat) (aname : String)
    (hname : agentAt (execute_workflow_record wid wname wd params t) k = aname)
    (hag : aname ∉ registry) :
    (∀ x ∈ (execute_workflow_run registry behave qacfg
        (execute_workflow_record wid wname wd params t) t).trace,
      statusAt x k ≠ StepStatus.running) ∧
    (statusAt (execute_workflow_run registry behave qacfg
        (execute_workflow_record wid wname wd params t) t).exec k ≠ StepStatus.pending →
      statusAt (execute_workflow_run registry behave qacfg
        (execute_workflow_record wid wname wd params t) t).exec k = StepStatus.failed ∧
      errorAt (execute_workflow_run registry behave qacfg
        (execute_workflow_record wid wname wd params t) t).exec k
        = some ("Agent not found: " ++ aname) ∧
      (execute_workflow_run registry behave qacfg
        (execute_workflow_record wid wname wd params t) t).exec.status
        = WorkflowStatus.failed ∧
      (execute_workflow_run registry behave qacfg
        (execute_workflow_record wid wname wd params t) t).finalized = false) := by
  unfold execute_workflow_run
  refine run_steps_agent_missing registry behave qacfg aname k _ 0 _ _ t rfl
    (Nat.zero_le k) hname hag ?_ ?_
  · intro m _
    exact statusAt_record wid wname wd params t m
  · intro x hx
    simp only [List.mem_singleton] at hx
    subst hx
    rw [statusAt_record]
    simp

/-- A two-step workflow whose second step names an unregistered agent. -/
def c3_wd : WorkflowDef :=
  { description := "two steps, second agent missing"
    steps := [{ agent := "a", action := "one" }, { agent := "ghost", action := "two" }]
    config := {} }

/-- C3 witness: the theorem applied to the concrete two-step workflow, agent
registry ["a"] and a dispatch oracle returning empty payloads. -/
theorem C3_witness :
    errorAt (execute_workflow_run ["a"] (fun _ => .ok []) {}
      (execute_workflow_record "w" "wf" c3_wd [] 0) 0).exec 1
      = some "Agent not found: ghost" ∧
    (execute_workflow_run ["a"] (fun _ => .ok []) {}
      (execute_workflow_record "w" "wf" c3_wd [] 0) 0).exec.status
      = WorkflowStatus.failed := by
  have h := C3_agent_not_found ["a"] (fun _ => .ok []) {} "w" "wf" c3_wd [] 0 1 "ghost"
    (by decide) (by decide)
  exact ⟨(h.2 (by decide)).2.1, (h.2 (by decide)).2.2.1⟩

/-- With partial completion disallowed, the loop stops at the first failed
step: whenever the final state records status failed on step k, every step
after k is pending in the final state and in every observable state. -/
theorem run_steps_no_partial (registry : List String) (behave : Nat → StepOutcome)
    (qacfg : QAConfig) (rest : List WorkflowStep) (i : Nat)
    (e : WorkflowExecution) (acc : List WorkflowExecution) (t : Nat)
    (hrest : e.steps.drop i = rest)
    (hap : e.config.allow_partial_completion = false)
    (hpend : ∀ m, i ≤ m → statusAt e m = StepStatus.pending)
    (hprev : ∀ m, m < i → statusAt e m ≠ StepStatus.failed)
    (hacc : ∀ x ∈ acc, ∀ m, i ≤ m → statusAt x m = StepStatus.pending) :
    ∀ k j, k < j →
      statusAt (run_steps registry behave qacfg rest i e acc t).exec k = StepStatus.failed →
      statusAt (run_steps registry behave qacfg rest i e acc t).exec j = StepStatus.pending ∧
      ∀ x ∈ (run_steps registry behave qacfg rest i e acc t).trace,
        statusAt x j = StepStatus.pending := by
  induction rest generalizing i e acc t with
  | nil =>
    intro k j hkj hfail
    exfalso
    have hfail2 : statusAt e k = StepStatus.failed := hfail
    rcases Nat.lt_or_ge k i with hlt | hge
    · exact hprev k hlt hfail2
    · rw [hpend k hge] at hfail2
      cases hfail2
  | cons s rest ih =>
    obtain ⟨hgd, hlen, hdrop⟩ := drop_cons_head hrest default_step
    have hstep_fail : ∀ (v w : WorkflowStep) k,
        (((e.steps.set i v).set i w).getD k default_step).status = StepStatus.failed →
        k = i ∧ w.status = StepStatus.failed := by
      intro v w k hf
      rw [List.set_set] at hf
      have hki : k = i := by
        by_contra hk
        rw [getD_set_ne (fun h2 => hk h2.symm)] at hf
        have hf2 : statusAt e k = StepStatus.failed := hf
        rcases Nat.lt_or_ge k i with hlt | hge
        · exact hprev k hlt hf2
        · rw [hpend k hge] at hf2
          cases hf2
      subst hki
      rw [getD_set_self hlen] at hf
      exact ⟨rfl, hf⟩
    have hstep_fail3 : ∀ (v w u : WorkflowStep) k,
        ((((e.steps.set i v).set i w).set i u).getD k default_step).status
            = StepStatus.failed →
        k = i ∧ u.status = StepStatus.failed := by
      intro v w u k hf
      rw [List.set_set] at hf
      exact hstep_fail v u k hf
    have hjs : ∀ (v w : WorkflowStep) j, i < j →
        (((e.steps.set i v).set i w).getD j default_step).status = StepStatus.pending := by
      intro v w j hj
      rw [List.set_set, getD_set_ne (Nat.ne_of_lt hj)]
      exact hpend j (Nat.le_of_lt hj)
    have hjs3 : ∀ (v w u : WorkflowStep) j, i < j →
        ((((e.steps.set i v).set i w).set i u).getD j default_step).status
          = StepStatus.pending := by
      intro v w u j hj
      rw [List.set_set]
      exact hjs v u j hj
    have htrj : ∀ (E : WorkflowExecution) j, i < j → statusAt E j = StepStatus.pending →
        ∀ x ∈ acc ++ [E], statusAt x j = StepStatus.pending := by
      intro E j hj hE x hx
      rcases List.mem_append.mp hx with hx | hx
      · exact hacc x hx j (Nat.le_of_lt hj)
      · simp only [List.mem_singleton] at hx
        subst hx
        exact hE
    have hE1 : ∀ (v : WorkflowStep) j, i < j →
        ((e.steps.set i v).getD j default_step).status = StepStatus.pending := by
      intro v j hj
      rw [getD_set_ne (Nat.ne_of_lt hj)]
      exact hpend j (Nat.le_of_lt hj)
    simp only [run_steps]
    by_cases hreg : s.agent ∈ registry
    · rw [if_pos hreg]
      cases hb : behave i with
      | timeout =>
        intro k j hkj hfail
        obtain ⟨hki, _⟩ := hstep_fail _ _ k hfail
        subst hki
        exact ⟨hjs _ _ j hkj, htrj _ j hkj (hE1 _ j hkj)⟩
      | exn m =>
        intro k j hkj hfail
        obtain ⟨hki, _⟩ := hstep_fail _ _ k hfail
        subst hki
        exact ⟨hjs _ _ j hkj, htrj _ j hkj (hE1 _ j hkj)⟩
      | ok r =>
        by_cases hqa : e.config.qa_validation = true
        · simp only [hqa, if_true]
          cases hv : validate_agent_output qacfg s.agent r with
          | error msg =>
            intro k j hkj hfail
            obtain ⟨_, hws⟩ := hstep_fail _ _ k hfail
            simp at hws
          | ok report =>
            by_cases hbr : (!report.passed && !report.corrected
                && !e.config.allow_partial_completion) = true
            · simp only [hbr, if_true]
              intro k j hkj hfail
              obtain ⟨hki, _⟩ := hstep_fail3 _ _ _ k hfail
              subst hki
              exact ⟨hjs3 _ _ _ j hkj, htrj _ j hkj (hE1 _ j hkj)⟩
            · rw [Bool.not_eq_true] at hbr
              simp only [hbr, Bool.false_eq_true, if_false]
              refine ih (i + 1) _ _ (t + 2) ?_ hap ?_ ?_ ?_
              · show ((e.steps.set i _).set i _).drop (i + 1) = rest
                rw [List.set_set, drop_succ_set]
                exact hdrop
              · intro m hm
                show (((e.steps.set i _).set i _).getD m default_step).status
                  = StepStatus.pending
                rw [List.set_set, getD_set_ne (Nat.ne_of_lt hm)]
                exact hpend m (Nat.le_of_succ_le hm)
              · intro m hm
                rcases Nat.lt_or_ge m i with hlt | hge
                · show (((e.steps.set i _).set i _).getD m default_step).status
                    ≠ StepStatus.failed
                  rw [List.set_set, getD_set_ne (Nat.ne_of_gt hlt)]
                  exact hprev m hlt
                · have hmi : m = i := Nat.le_antisymm (Nat.lt_succ_iff.mp hm) hge
                  subst hmi
                  show (((e.steps.set m _).set m _).getD m default_step).status
                    ≠ StepStatus.failed
                  rw [List.set_set, getD_set_self hlen]
                  simp
              · intro x hx m hm
                rcases List.mem_append.mp hx with hx | hx
                · exact hacc x hx m (Nat.le_of_succ_le hm)
                · simp only [List.mem_singleton] at hx
                  subst hx
                  show ((e.steps.set i _).getD m default_step).status = StepStatus.pending
                  rw [getD_set_ne (Nat.ne_of_lt hm)]
                  exact hpend m (Nat.le_of_succ_le hm)
        · rw [Bool.not_eq_true] at hqa
          simp only [hqa, Bool.false_eq_true, if_false]
          refine ih (i + 1) _ _ (t + 2) ?_ hap ?_ ?_ ?_
          · show ((e.steps.set i _).set i _).drop (i + 1) = rest
            rw [List.set_set, drop_succ_set]
            exact hdrop
          · intro m hm
            show (((e.steps.set i _).set i _).getD m default_step).status
              = StepStatus.pending
            rw [List.set_set, getD_set_ne (Nat.ne_of_lt hm)]
            exact hpend m (Nat.le_of_succ_le hm)
          · intro m hm
            rcases Nat.lt_or_ge m i with hlt | hge
            · show (((e.steps.set i _).set i _).getD m default_step).status
                ≠ StepStatus.failed
              rw [List.set_set, getD_set_ne (Nat.ne_of_gt hlt)]
              exact hprev m hlt
            · have hmi : m = i := Nat.le_antisymm (Nat.lt_succ_iff.mp hm) hge
              subst hmi
              show (((e.steps.set m _).set m _).getD m default_step).status
                ≠ StepStatus.failed
              rw [List.set_set, getD_set_self hlen]
              simp
          · intro x hx m hm
            rcases List.mem_append.mp hx with hx | hx
            · exact hacc x hx m (Nat.le_of_succ_le hm)
            · simp only [List.mem_singleton] at hx
              subst hx
              show ((e.steps.set i _).getD m default_step).status = StepStatus.pending
              rw [getD_set_ne (Nat.ne_of_lt hm)]
              exact hpend m (Nat.le_of_succ_le hm)
    · rw [if_neg hreg]
      intro k j hkj hfail
      obtain ⟨hki, _⟩ := hstep_fail _ _ k hfail
      subst hki
      refine ⟨hjs _ _ j hkj, ?_⟩
      intro x hx
      exact hacc x hx j (Nat.le_of_lt hkj)

/-- C6: with allow_partial_completion false, once the run has recorded status
failed on step k, every later step j stays pending forever — in the final
state and at every observable instant of the run, so it never transitions to
running. -/
theorem C6_failure_stops_later_steps (registry : List String)
    (behave : Nat → StepOutcome) (qacfg : QAConfig) (wid wname : String)
    (wd : WorkflowDef) (params : Payload) (t : Nat) (k j : Nat)
    (hap : wd.config.allow_partial_completion = false)
    (hkj : k < j)
    (hfail : statusAt (execute_workflow_run registry behave qacfg
        (execute_workflow_record wid wname wd params t) t).exec k = StepStatus.failed) :
    statusAt (execute_workflow_run registry behave qacfg
        (execute_workflow_record wid wname wd params t) t).exec j = StepStatus.pending ∧
    ∀ x ∈ (execute_workflow_run registry behave qacfg
        (execute_workflow_record wid wname wd params t) t).trace,
      statusAt x j = StepStatus.pending := by
  unfold execute_workflow_run at hfail ⊢
  refine run_steps_no_partial registry behave qacfg _ 0 _ _ t ?_ hap ?_ ?_ ?_ k j hkj hfail
  · rfl
  · intro m _
    exact statusAt_record wid wname wd params t m
  · intro m hm
    exact absurd hm (Nat.not_lt_zero m)
  · intro x hx m _
    simp only [List.mem_singleton] at hx
    subst hx
    exact statusAt_record wid wname wd params t m

/-- C6 witness: with no agents registered, step 0 of the two-step workflow
fails and step 1 stays pending. -/
theorem C6_witness :
    statusAt (execute_workflow_run [] (fun _ => .ok []) {}
      (execute_workflow_record "w" "wf" c3_wd [] 0) 0).exec 1 = StepStatus.pending :=
  (C6_failure_stops_later_steps [] (fun _ => .ok []) {} "w" "wf" c3_wd [] 0 0 1
    rfl (by decide) (by decide)).1

/-- When the dispatch of step k (whose agent `aname` is registered and whose
configured timeout is `tval`) times out, the loop reaching step k marks it
failed with "Step timeout after {n}s", stamps its end time, aborts the
execution as failed without finalization, and leaves every later step
pending. -/
theorem run_steps_timeout_lemma (registry : List String) (behave : Nat → StepOutcome)
    (qacfg : QAConfig) (aname : String) (tval : Int) (k : Nat)
    (rest : List WorkflowStep) (i : Nat) (e : WorkflowExecution)
    (acc : List WorkflowExecution) (t : Nat)
    (hrest : e.steps.drop i = rest)
    (hik : i ≤ k)
    (hb : behave k = StepOutcome.timeout)
    (hname : agentAt e k = aname)
    (hreg : aname ∈ registry)
    (htval : timeoutAt e k = tval)
    (hpend : ∀ m, i ≤ m → statusAt e m = StepStatus.pending) :
    statusAt (run_steps registry behave qacfg rest i e acc t).exec k ≠ StepStatus.pending →
      statusAt (run_steps registry behave qacfg rest i e acc t).exec k
        = StepStatus.failed ∧
      errorAt (run_steps registry behave qacfg rest i e acc t).exec k
        = some ("Step timeout after " ++ toString tval ++ "s") ∧
      endTimeAt (run_steps registry behave qacfg rest i e acc t).exec k ≠ none ∧
      (run_steps registry behave qacfg rest i e acc t).exec.status
        = WorkflowStatus.failed ∧
      (run_steps registry behave qacfg rest i e acc t).finalized = false ∧
      (∀ j, k < j →
        statusAt (run_steps registry behave qacfg rest i e acc t).exec j
          = StepStatus.pending) := by
  induction rest generalizing i e acc t with
  | nil =>
    intro hne
    exact absurd (hpend k hik) hne
  | cons s rest ih =>
    obtain ⟨hgd, hlen, hdrop⟩ := drop_cons_head hrest default_step
    have hagent_i : agentAt e i = s.agent := by unfold agentAt; rw [hgd]
    simp only [run_steps]
    by_cases hik2 : i = k
    · subst hik2
      rw [hname] at hagent_i
      rw [if_pos (hagent_i ▸ hreg), hb]
      intro _
      have hself : ∀ v w : WorkflowStep,
          ((e.steps.set i v).set i w).getD i default_step = w := by
        intro v w
        rw [List.set_set]
        exact getD_set_self hlen _ _
      have htv : s.timeout = tval := by
        rw [← htval]
        unfold timeoutAt
        rw [hgd]
      refine ⟨?_, ?_, ?_, rfl, rfl, ?_⟩
      · show (((e.steps.set i _).set i _).getD i default_step).status = StepStatus.failed
        rw [hself]
      · show (((e.steps.set i _).set i _).getD i default_step).error
          = some ("Step timeout after " ++ toString tval ++ "s")
        rw [hself, htv]
      · show (((e.steps.set i _).set i _).getD i default_step).end_time ≠ none
        rw [hself]
        simp
      · intro j hj
        show (((e.steps.set i _).set i _).getD j default_step).status = StepStatus.pending
        rw [List.set_set, getD_set_ne (Nat.ne_of_lt hj)]
        exact hpend j (Nat.le_of_lt hj)
    · have hik5 : i + 1 ≤ k := Nat.lt_of_le_of_ne hik hik2
      have hstat2 : ∀ v w : WorkflowStep,
          (((e.steps.set i v).set i w).getD k default_step).status = StepStatus.pending := by
        intro v w; rw [List.set_set, getD_set_ne hik2]; exact hpend k hik
      have hstat3 : ∀ v w u : WorkflowStep,
          ((((e.steps.set i v).set i w).set i u).getD k default_step).status
            = StepStatus.pending := by
        intro v w u; rw [List.set_set, List.set_set, getD_set_ne hik2]; exact hpend k hik
      have hrec : ∀ v w : WorkflowStep,
          (((e.steps.set i v).set i w).drop (i + 1) = rest) ∧
          ((((e.steps.set i v).set i w).getD k default_step).agent = aname) ∧
          ((((e.steps.set i v).set i w).getD k default_step).timeout = tval) := by
        intro v w
        rw [List.set_set, drop_succ_set, getD_set_ne hik2]
        exact ⟨hdrop, hname, htval⟩
      by_cases hreg2 : s.agent ∈ registry
      · rw [if_pos hreg2]
        cases hb2 : behave i with
        | timeout => exact fun hne => absurd (hstat2 _ _) hne
        | exn m => exact fun hne => absurd (hstat2 _ _) hne
        | ok r =>
          by_cases hqa : e.config.qa_validation = true
          · simp only [hqa, if_true]
            cases hv : validate_agent_output qacfg s.agent r with
            | error msg => exact fun hne => absurd (hstat2 _ _) hne
            | ok report =>
              by_cases hbr : (!report.passed && !report.corrected
                  && !e.config.allow_partial_completion) = true
              · simp only [hbr, if_true]
                exact fun hne => absurd (hstat3 _ _ _) hne
              · rw [Bool.not_eq_true] at hbr
                simp only [hbr, Bool.false_eq_true, if_false]
                refine ih (i + 1) _ _ (t + 2) ?_ hik5 ?_ ?_ ?_
                · exact (hrec _ _).1
                · exact (hrec _ _).2.1
                · exact (hrec _ _).2.2
                · intro m hm
                  show (((e.steps.set i _).set i _).getD m default_step).status
                    = StepStatus.pending
                  rw [List.set_set, getD_set_ne (Nat.ne_of_lt hm)]
                  exact hpend m (Nat.le_of_succ_le hm)
          · rw [Bool.not_eq_true] at hqa
            simp only [hqa, Bool.false_eq_true, if_false]
            refine ih (i + 1) _ _ (t + 2) ?_ hik5 ?_ ?_ ?_
            · exact (hrec _ _).1
            · exact (hrec _ _).2.1
            · exact (hrec _ _).2.2
            · intro m hm
              show (((e.steps.set i _).set i _).getD m default_step).status
                = StepStatus.pending
              rw [List.set_set, getD_set_ne (Nat.ne_of_lt hm)]
              exact hpend m (Nat.le_of_succ_le hm)
      · rw [if_neg hreg2]
        exact fun hne => absurd (hstat2 _ _) hne

/-- Overwrite the inert max_retries entry of an execution config bag. -/
def set_max_retries (v : Option Int) (e : WorkflowExecution) : WorkflowExecution :=
  { e with config := { e.config with max_retries := v } }

/-- Finalization commutes with changing max_retries: the final validation
reads only the step list. -/
theorem complete_workflow_set_max_retries (qacfg : QAConfig) (v : Option Int)
    (e : WorkflowExecution) (t : Nat) :
    complete_workflow qacfg (set_max_retries v e) t
      = set_max_retries v (complete_workflow qacfg e t) := rfl

/-- A record update of the shape the loop body produces commutes with
overwriting max_retries. -/
theorem set_mr_shape (v : Option Int) (e : WorkflowExecution)
    (steps : List WorkflowStep) (ci : Nat) (res : List (String × Payload))
    (qas : List QAReport) :
    ({ id := (set_max_retries v e).id
       name := (set_max_retries v e).name
       description := (set_max_retries v e).description
       steps := steps
       status := (set_max_retries v e).status
       parameters := (set_max_retries v e).parameters
       config := (set_max_retries v e).config
       start_time := (set_max_retries v e).start_time
       end_time := (set_max_retries v e).end_time
       current_step_index := ci
       results := res
       qa_reports := qas } : WorkflowExecution)
    = set_max_retries v
      { id := e.id
        name := e.name
        description := e.description
        steps := steps
        status := e.status
        parameters := e.parameters
        config := e.config
        start_time := e.start_time
        end_time := e.end_time
        current_step_index := ci
        results := res
        qa_reports := qas } := rfl

/-- The run loop never consults max_retries: the final execution state (with
the entry overwritten) and the finalization flag do not depend on it, for any
trace accumulators. -/
theorem run_steps_ignores_max_retries (registry : List String)
    (behave : Nat → StepOutcome) (qacfg : QAConfig) (v : Option Int)
    (rest : List WorkflowStep) (i : Nat) (e : WorkflowExecution)
    (acc2 acc : List WorkflowExecution) (t : Nat) :
    (run_steps registry behave qacfg rest i (set_max_retries v e) acc2 t).exec
      = set_max_retries v (run_steps registry behave qacfg rest i e acc t).exec ∧
    (run_steps registry behave qacfg rest i (set_max_retries v e) acc2 t).finalized
      = (run_steps registry behave qacfg rest i e acc t).finalized := by
  induction rest generalizing i e acc2 acc t with
  | nil => exact ⟨rfl, rfl⟩
  | cons s rest ih =>
    simp only [run_steps]
    have hqa : (set_max_retries v e).config.qa_validation = e.config.qa_validation := rfl
    have hap : (set_max_retries v e).config.allow_partial_completion
        = e.config.allow_partial_completion := rfl
    by_cases hreg : s.agent ∈ registry
    · rw [if_pos hreg, if_pos hreg]
      cases hb : behave i with
      | timeout => exact ⟨by trivial, by trivial⟩
      | exn m => exact ⟨by trivial, by trivial⟩
      | ok r =>
        rw [hqa]
        by_cases hqa2 : e.config.qa_validation = true
        · simp only [hqa2, if_true]
          cases hv : validate_agent_output qacfg s.agent r with
          | error msg => exact ⟨by trivial, by trivial⟩
          | ok report =>
            rw [hap]
            by_cases hbr : (!report.passed && !report.corrected
                && !e.config.allow_partial_completion) = true
            · simp only [hbr, if_true]
              exact ⟨by trivial, by trivial⟩
            · rw [Bool.not_eq_true] at hbr
              simp only [hbr, Bool.false_eq_true, if_false]
              rw [set_mr_shape]
              exact ih (i + 1) _ _ _ (t + 2)
        · rw [Bool.not_eq_true] at hqa2
          simp only [hqa2, Bool.false_eq_true, if_false]
          rw [set_mr_shape]
          exact ih (i + 1) _ _ _ (t + 2)
    · rw [if_neg hreg, if_neg hreg]
      exact ⟨by trivial, by trivial⟩

/-- C7: when the dispatched agent call of step k (whose agent is registered
with configured timeout tval) times out, the run reaching that step marks it
failed with the error "Step timeout after {n}s", stamps the step end time,
and aborts the whole execution as failed without finalization and with every
later step left pending; and the whole run result is unchanged by any
max_retries value in the configuration (the field is accepted but never
consulted), so the step is dispatched exactly once with no retry. -/
theorem C7_step_timeout (registry : List String) (behave : Nat → StepOutcome)
    (qacfg : QAConfig) (wid wname : String) (wd : WorkflowDef) (params : Payload)
    (t : Nat) (k : Nat) (aname : String) (tval : Int)
    (hname : agentAt (execute_workflow_record wid wname wd params t) k = aname)
    (hreg : aname ∈ registry)
    (htval : timeoutAt (execute_workflow_record wid wname wd params t) k = tval)
    (hb : behave k = StepOutcome.timeout) :
    (statusAt (execute_workflow_run registry behave qacfg
        (execute_workflow_record wid wname wd params t) t).exec k ≠ StepStatus.pending →
      statusAt (execute_workflow_run registry behave qacfg
        (execute_workflow_record wid wname wd params t) t).exec k = StepStatus.failed ∧
      errorAt (execute_workflow_run registry behave qacfg
        (execute_workflow_record wid wname wd params t) t).exec k
        = some ("Step timeout after " ++ toString tval ++ "s") ∧
      endTimeAt (execute_workflow_run registry behave qacfg
        (execute_workflow_record wid wname wd params t) t).exec k ≠ none ∧
      (execute_workflow_run registry behave qacfg
        (execute_workflow_record wid wname wd params t) t).exec.status
        = WorkflowStatus.failed ∧
      (execute_workflow_run registry behave qacfg
        (execute_workflow_record wid wname wd params t) t).finalized = false ∧
      (∀ j, k < j → statusAt (execute_workflow_run registry behave qacfg
        (execute_workflow_record wid wname wd params t) t).exec j = StepStatus.pending)) ∧
    (∀ v : Option Int,
      (execute_workflow_run registry behave qacfg
        (set_max_retries v (execute_workflow_record wid wname wd params t)) t).exec
        = set_max_retries v (execute_workflow_run registry behave qacfg
            (execute_workflow_record wid wname wd params t) t).exec ∧
      (execute_workflow_run registry behave qacfg
        (set_max_retries v (execute_workflow_record wid wname wd params t)) t).finalized
        = (execute_workflow_run registry behave qacfg
            (execute_workflow_record wid wname wd params t) t).finalized) := by
  constructor
  · unfold execute_workflow_run
    refine run_steps_timeout_lemma registry behave qacfg aname tval k _ 0 _ _ t ?_
      (Nat.zero_le k) hb hname hreg htval ?_
    · rfl
    · intro m _
      exact statusAt_record wid wname wd params t m
  · intro v
    unfold execute_workflow_run
    exact run_steps_ignores_max_retries registry behave qacfg v
      ((set_max_retries v (execute_workflow_record wid wname wd params t)).steps) 0
      { execute_workflow_record wid wname wd params t with status := .running }
      [set_max_retries v (execute_workflow_record wid wname wd params t)]
      [execute_workflow_record wid wname wd params t] t

/-- C7 witness: the theorem applied to a one-registered-agent workflow whose
dispatch always times out, with max_retries set to 5 on the invariance side. -/
theorem C7_witness :
    errorAt (execute_workflow_run ["a"] (fun _ => .timeout) {}
      (execute_workflow_record "w" "wf" c3_wd [] 0) 0).exec 0
      = some "Step timeout after 60s" ∧
    (execute_workflow_run ["a"] (fun _ => .timeout) {}
      (execute_workflow_record "w" "wf" c3_wd [] 0) 0).exec.status
      = WorkflowStatus.failed ∧
    (execute_workflow_run ["a"] (fun _ => .timeout) {}
      (set_max_retries (some 5) (execute_workflow_record "w" "wf" c3_wd [] 0)) 0).finalized
      = (execute_workflow_run ["a"] (fun _ => .timeout) {}
      (execute_workflow_record "w" "wf" c3_wd [] 0) 0).finalized := by
  have h := C7_step_timeout ["a"] (fun _ => .timeout) {} "w" "wf" c3_wd [] 0 0 "a" 60
    (by decide) (by decide) (by decide) rfl
  exact ⟨(h.1 (by decide)).2.1, (h.1 (by decide)).2.2.2.1, (h.2 (some 5)).2⟩

end SemanticAnalysis
